import Mathlib

/-!
Verification of the spectrum-based DOA estimation core
(`doatools/estimation/core.py`) against its design specification.

The Python source is shallowly embedded below.  Real-valued numpy arrays
are modelled as `List ℚ`; complex steering matrices never need to be
inspected by the core (they only flow through the caller-supplied
spectrum callback), so every function that consumes a steering matrix is
modelled by its composition with that callback.  Python tuples of numpy
coordinate arrays (one array per axis, all of the same length) are
modelled in transposed form, as a list of coordinate tuples
`List (List Nat)`; the two representations are isomorphic and the
transposition is noted at each use site.
-/

namespace Doatools

/-- Row-major flattened index of a multi-dimensional coordinate, as
computed by `np.ravel_multi_index(coords, shape)` for in-range
coordinates: `((c₀·s₁ + c₁)·s₂ + c₂)…`. -/
def ravel (shape coords : List Nat) : Nat :=
  (List.zip coords shape).foldl (fun acc cs => acc * cs.2 + cs.1) 0

/-- Row-major multi-dimensional coordinate of a flattened index, as
computed by `np.unravel_index(n, shape)` for an in-range index `n`
(numpy raises for out-of-range input; the embedding is total and is only
applied to in-range indices produced by `ravel`). -/
def unravel (shape : List Nat) (n : Nat) : List Nat :=
  match shape with
  | [] => []
  | _s :: rest => (n / rest.prod) :: unravel rest (n % rest.prod)

/-- Python slice `l[-k:]` on a list of length `n`: the last `k` elements.
Python computes the start as `n - k` clamped to `0`, and `-0` is `0`, so
`k = 0` yields the whole list and `k > n` also yields the whole list. -/
def pySliceLast {α : Type} (l : List α) (k : Nat) : List α :=
  if k = 0 then l else l.drop (l.length - k)

/-- Embedding of `np.argsort(v)`: a permutation of `[0, …, len v)` that
sorts `v` ascending.  numpy's default sort is an unstable introsort whose
order among equal values is unspecified; the embedding fixes the stable
insertion-sort order, which satisfies the same sorting contract. -/
def npArgsort (v : List ℚ) : List Nat :=
  List.insertionSort (fun i j => v.getD i 0 ≤ v.getD j 0) (List.range v.length)

/-- Scan underlying `npArgmax`, carrying (next index, best index, best value). -/
def npArgmaxGo : List ℚ → Nat → Nat → ℚ → Nat × ℚ
  | [], _, bi, bv => (bi, bv)
  | x :: xs, i, bi, bv =>
      if bv < x then npArgmaxGo xs (i + 1) i x else npArgmaxGo xs (i + 1) bi bv

/-- Embedding of `np.argmax(l)` for a 1-D array: the first index at which
the maximum value occurs (numpy documents first-occurrence tie-breaking). -/
def npArgmax (l : List ℚ) : Nat :=
  (npArgmaxGo l 0 0 (l.getD 0 0)).1

/-!
### NoiseSubspaceExtractor — `get_noise_subspace(R, k)`

The source computes `_, E = np.linalg.eigh(R)` and returns `E[:, :-k]`.
`np.linalg.eigh` is an external solver; it is modelled as a black box
whose output `E` (the matrix of eigenvectors, in ascending order of the
corresponding eigenvalues, as numpy documents) is taken as the input of
the embedded function.  A matrix is represented as the list of its
columns, each column a `List ℚ`.  The column slice `E[:, :-k]` keeps the
first `n - k` columns when `k > 0`; numpy basic slicing clamps
out-of-range bounds and never raises, and `:-0` is `:0`, which keeps no
column at all.
-/

/-- Embedding of `get_noise_subspace` after the external
eigen-decomposition: `E` is the eigenvector matrix returned by
`np.linalg.eigh(R)` (list of columns, ascending eigenvalue order) and the
result is the Python column slice `E[:, :-k]`. -/
def get_noise_subspace (E : List (List ℚ)) (k : Nat) : List (List ℚ) :=
  E.take (if k = 0 then 0 else E.length - k)

/-- Matrix–vector product over ℚ, for stating the eigenvector property.
`R` is given as a list of rows. -/
def mulVec (R : List (List ℚ)) (v : List ℚ) : List ℚ :=
  R.map (fun row => ((List.zip row v).map (fun p => p.1 * p.2)).sum)

/-- Scalar multiple of a vector over ℚ. -/
def smulVec (c : ℚ) (v : List ℚ) : List ℚ :=
  v.map (fun x => c * x)

/-!
### PeakFinder — `find_peaks_simple(x)`, 1-D branch

For `x.ndim == 1` the source delegates to `scipy.signal.find_peaks(x)`
with all optional conditions at their defaults, in which case the result
is exactly scipy's `_local_maxima_1d(x)`: a scan over the interior
indices `1 … n-2` that reports, for every maximal run of equal values
("plateau") strictly greater than the values adjacent to the run on both
sides, the midpoint of the run (rounded down).  Boundary samples can
never be reported.  The embedding below is that scan, written with an
explicit fuel argument that bounds the number of loop steps; the scan
index grows by at least one per step and stays below `n - 1`, so any
fuel ≥ `n` reproduces the Python loop exactly, and `find_peaks_1d`
supplies `x.length` as fuel.
-/

/-- Inner scan of scipy's `_local_maxima_1d`: starting at `j`, advance
while `j < iMax` and `x[j] = v`, returning the first index where the scan
stops (`i_ahead` in the scipy source).  `fuel` bounds the steps; any
fuel ≥ `iMax - j` is sufficient. -/
def plateauScan (x : List ℚ) (iMax : Nat) (v : ℚ) : Nat → Nat → Nat
  | 0, j => j
  | fuel + 1, j =>
      if j < iMax ∧ x.getD j 0 = v then plateauScan x iMax v fuel (j + 1) else j

/-- Outer loop of scipy's `_local_maxima_1d`: scan `i` over `1 … iMax-1`;
when `x[i-1] < x[i]`, locate the end `ia` of the plateau of value `x[i]`
and, if `x[ia] < x[i]`, report the plateau midpoint `(i + (ia - 1)) / 2`
and resume at `ia + 1`. -/
def lmLoop (x : List ℚ) (iMax : Nat) : Nat → Nat → List Nat
  | 0, _ => []
  | fuel + 1, i =>
      if i < iMax then
        if x.getD (i - 1) 0 < x.getD i 0 then
          let ia := plateauScan x iMax (x.getD i 0) iMax (i + 1)
          if x.getD ia 0 < x.getD i 0 then
            ((i + (ia - 1)) / 2) :: lmLoop x iMax fuel (ia + 1)
          else
            lmLoop x iMax fuel (i + 1)
        else
          lmLoop x iMax fuel (i + 1)
      else []

/-- Embedding of the 1-D branch of `find_peaks_simple`: the indices
reported by `scipy.signal.find_peaks(x)[0]` under default conditions. -/
def find_peaks_1d (x : List ℚ) : List Nat :=
  lmLoop x (x.length - 1) x.length 1

/-- Embedding of `find_peaks_simple` on a 1-D input: the source returns
the one-element tuple `(find_peaks(x)[0],)`. -/
def find_peaks_simple_1d (x : List ℚ) : List (List Nat) :=
  [find_peaks_1d x]

/-!
### SteeringMatrixProvider — `_get_steering_matrix()`

`self._A` starts as `None`; a call returns the cached matrix when
present, otherwise computes `A` via the array-design collaborator and
stores it in `self._A` only when `self._enable_caching` is set.  The
design, grid and wavelength are fixed for the lifetime of the pipeline,
so the collaborator's result is a fixed value `computeA`; the state
carries the cache slot plus an instrumentation counter of collaborator
invocations.
-/

/-- Mutable state of the provider: the `self._A` slot plus a count of
`design.steering_matrix` invocations (instrumentation). -/
structure ProviderState (M : Type) where
  A : Option M
  computeCount : Nat

/-- Embedding of `_get_steering_matrix`: returns the matrix and the
updated state. -/
def _get_steering_matrix {M : Type} (computeA : M) (enable_caching : Bool)
    (s : ProviderState M) : M × ProviderState M :=
  match s.A with
  | some A => (A, s)
  | none =>
      (computeA,
       { A := if enable_caching then some computeA else none,
         computeCount := s.computeCount + 1 })

/-- State after `n` successive calls to `_get_steering_matrix`. -/
def providerAfter {M : Type} (computeA : M) (enable_caching : Bool)
    (s : ProviderState M) : Nat → ProviderState M
  | 0 => s
  | n + 1 => (_get_steering_matrix computeA enable_caching
      (providerAfter computeA enable_caching s n)).2

/-- Values returned by `n` successive calls to `_get_steering_matrix`. -/
def providerReturns {M : Type} (computeA : M) (enable_caching : Bool)
    (s : ProviderState M) : Nat → List M
  | 0 => []
  | n + 1 => providerReturns computeA enable_caching s n ++
      [(_get_steering_matrix computeA enable_caching
        (providerAfter computeA enable_caching s n)).1]

/-!
### SpectrumPipeline — `_estimate(f_sp, k, …)`

Collaborator inputs are passed explicitly:

* `shape` — `self._search_grid.shape`;
* `placement` — `self._search_grid.source_placement`, a list of abstract
  location values indexed by flattened grid index;
* `spFlat` — the 1-D output of `f_sp` on the steering matrix (the source
  reshapes it to `shape`; indexing the reshaped array at a coordinate
  tuple equals indexing the flat array at the row-major `ravel` of that
  tuple, so the embedding keeps the flat array plus the shape);
* `peaks` — the output of `self._peak_finder` on the reshaped spectrum,
  in transposed form (a list of coordinate tuples instead of a tuple of
  per-axis coordinate arrays).

The call `self._refine_estimates(f_sp, estimates, peak_indices)`
mutates the estimates in place; the embedding records the invocation and
its arguments (including the defaulted `density=10, n_iters=3` from the
`_refine_estimates` signature, since the source call site passes
neither) in the `refineCall` field, and `_refine_estimates` itself is
embedded separately below.
-/

/-- Arguments with which `_estimate` invokes `_refine_estimates`
(`f_sp` is the ambient spectrum callback and is not part of the data). -/
structure RefineCallData (α : Type) where
  est0 : List α
  coords : List (List Nat)
  density : Nat
  n_iters : Nat

/-- Return value of `_estimate`.  `spectrum = none` models a 2-tuple
return (spectrum absent); `spectrum = some v` models a 3-tuple return
whose last component is `v` (`none` for Python `None`). -/
structure EstimateRet (α : Type) where
  resolved : Bool
  estimates : Option (List α)
  spectrum : Option (Option (List ℚ))
  refineCall : Option (RefineCallData α)

/-- Spectrum values gathered at the peak coordinates:
`peak_values = sp[peak_indices]` in the source, where `sp` is the
reshaped spectrum. -/
def peakValues (shape : List Nat) (spFlat : List ℚ)
    (peaks : List (List Nat)) : List ℚ :=
  peaks.map (fun c => spFlat.getD (ravel shape c) 0)

/-- Embedding of `SpectrumBasedEstimatorBase._estimate`.  `d` is the
default location value used by total list indexing. -/
def _estimate {α : Type} (shape : List Nat) (placement : List α)
    (spFlat : List ℚ) (peaks : List (List Nat)) (k : Nat)
    (return_spectrum refine_estimates : Bool)
    (refinement_density refinement_iters : Nat) (d : α) : EstimateRet α :=
  let n_peaks := peaks.length
  if n_peaks < k then
    { resolved := false, estimates := none,
      spectrum := if return_spectrum then some none else none,
      refineCall := none }
  else
    let peak_values := peakValues shape spFlat peaks
    let top_indices := pySliceLast (npArgsort peak_values) k
    let sel := top_indices.map (fun i => peaks.getD i [])
    let flattened := List.insertionSort (· ≤ ·) (sel.map (ravel shape))
    let estimates := flattened.map (fun fi => placement.getD fi d)
    { resolved := true, estimates := some estimates,
      spectrum := if return_spectrum then some (some spFlat) else none,
      refineCall :=
        if refine_estimates then
          some { est0 := estimates, coords := flattened.map (unravel shape),
                 density := 10, n_iters := 3 }
        else none }

/-!
### GridRefiner — `_refine_estimates(f_sp, est0, peak_indices, density=10, n_iters=3)`

Collaborators, passed explicitly:

* `sp` — the composition `f_sp(self._design.steering_matrix(placement, …))`
  as a function of a sub-grid's source placement (both factors are
  caller-supplied or out-of-scope collaborators; the core only ever uses
  their composition here);
* `mkGrid g coord density` — `g.create_refined_grid_at(coord, density)`;
* `subgrids0` — the output of
  `self._search_grid.create_refined_grids_at(*peak_indices, density=density)`.

The in-place writes `locations[i] = …` and `subgrids[i] = …` are
modelled with `List.set`; the state additionally records, as
instrumentation, every location write (index and value, in execution
order) and the index of every sub-grid construction performed inside the
loop. -/

/-- A sub-grid: its shape and its source placement (list of abstract
location values in flattened order). -/
structure SubGrid (α : Type) where
  shape : List Nat
  placement : List α

/-- Loop state of `_refine_estimates`: the mutable `locations` and
`subgrids` plus the instrumentation traces. -/
structure RefineState (α : Type) where
  locations : List α
  subgrids : List (SubGrid α)
  writes : List (Nat × α)
  gridMakes : List Nat

/-- Body of the inner loop of `_refine_estimates` for round `r` and
estimate index `i`: evaluate the spectrum on sub-grid `i`, take the
flattened argmax, overwrite `locations[i]` with the sub-grid point at
that index, and (except in the final round) replace `subgrids[i]` with a
finer grid centred at the argmax coordinate. -/
def refineBody {α : Type} (sp : List α → List ℚ)
    (mkGrid : SubGrid α → List Nat → Nat → SubGrid α)
    (density n_iters : Nat) (d : α) (r : Nat) (s : RefineState α)
    (i : Nat) : RefineState α :=
  let g := s.subgrids.getD i ⟨[], []⟩
  let spv := sp g.placement
  let i_max := npArgmax spv
  let loc := g.placement.getD i_max d
  let s' : RefineState α :=
    { s with locations := s.locations.set i loc,
             writes := s.writes ++ [(i, loc)] }
  if r = n_iters - 1 then s'
  else
    let peak_coord := unravel g.shape i_max
    { s' with subgrids := s'.subgrids.set i (mkGrid g peak_coord density),
              gridMakes := s'.gridMakes ++ [i] }

/-- One round (`for i in range(len(subgrids))`) of `_refine_estimates`. -/
def refineRound {α : Type} (sp : List α → List ℚ)
    (mkGrid : SubGrid α → List Nat → Nat → SubGrid α)
    (density n_iters : Nat) (d : α) (r : Nat) (s : RefineState α) :
    RefineState α :=
  (List.range s.subgrids.length).foldl (refineBody sp mkGrid density n_iters d r) s

/-- Embedding of `_refine_estimates` (`for r in range(n_iters)` over
`refineRound`), starting from `est0.locations` and the initial sub-grids
returned by the search-grid collaborator. -/
def _refine_estimates {α : Type} (sp : List α → List ℚ)
    (mkGrid : SubGrid α → List Nat → Nat → SubGrid α)
    (locations0 : List α) (subgrids0 : List (SubGrid α))
    (density n_iters : Nat) (d : α) : RefineState α :=
  (List.range n_iters).foldl
    (fun s r => refineRound sp mkGrid density n_iters d r s)
    ⟨locations0, subgrids0, [], []⟩

/-- Modelled from the spec (§4.5): the per-estimate refinement chain.
`refineChainGrid … r i` is the sub-grid used for estimate `i` in round
`r`, and `refineChainLoc … r i` the location written there: the
sub-grid point at the flattened argmax of the spectrum on that grid.  A
finer grid is constructed after every round except the last.  The
equivalence of `_refine_estimates` with this chain is the content of the
refinement theorem. -/
def refineChainGrid {α : Type} (sp : List α → List ℚ)
    (mkGrid : SubGrid α → List Nat → Nat → SubGrid α)
    (density n_iters : Nat) (subgrids0 : List (SubGrid α)) (i : Nat) :
    Nat → SubGrid α
  | 0 => subgrids0.getD i ⟨[], []⟩
  | r + 1 =>
      let g := refineChainGrid sp mkGrid density n_iters subgrids0 i r
      if r = n_iters - 1 then g
      else mkGrid g (unravel g.shape (npArgmax (sp g.placement))) density

/-- Modelled from the spec (§4.5): the location written for estimate `i`
in round `r` — the point of that round's sub-grid at the flattened
argmax of the spectrum evaluated on it. -/
def refineChainLoc {α : Type} (sp : List α → List ℚ)
    (mkGrid : SubGrid α → List Nat → Nat → SubGrid α)
    (density n_iters : Nat) (subgrids0 : List (SubGrid α)) (d : α)
    (i r : Nat) : α :=
  let g := refineChainGrid sp mkGrid density n_iters subgrids0 i r
  g.placement.getD (npArgmax (sp g.placement)) d

/-- The location value a refinement step writes for sub-grid `g`: the
sub-grid point at the flattened argmax of the spectrum evaluated on `g`
(`g.source_placement[sp(A).argmax()]` in the source). -/
def subgridLoc {α : Type} (sp : List α → List ℚ) (d : α) (g : SubGrid α) : α :=
  g.placement.getD (npArgmax (sp g.placement)) d

/-- The sub-grid used in the next round: unchanged in the final round
(`r = n_iters - 1`), otherwise the finer grid centred at the argmax
coordinate (`g.create_refined_grid_at(peak_coord, density)`). -/
def subgridNext {α : Type} (sp : List α → List ℚ)
    (mkGrid : SubGrid α → List Nat → Nat → SubGrid α)
    (density n_iters r : Nat) (g : SubGrid α) : SubGrid α :=
  if r = n_iters - 1 then g
  else mkGrid g (unravel g.shape (npArgmax (sp g.placement))) density

/-- The state of `_refine_estimates` after its first `r` rounds. -/
def refineRounds {α : Type} (sp : List α → List ℚ)
    (mkGrid : SubGrid α → List Nat → Nat → SubGrid α)
    (density n_iters : Nat) (d : α) (s0 : RefineState α) (r : Nat) :
    RefineState α :=
  (List.range r).foldl (fun s r' => refineRound sp mkGrid density n_iters d r' s) s0

/-- Predicate: `p` is an interior plateau local maximum of `x` — the
midpoint (rounded down) of a run `[l, r]` of equal values strictly
greater than the values adjacent to the run on both sides.  When the
run has width 1 (`l = r = p`) this is exactly "strictly greater than
both immediate neighbors". -/
def IsPlateauPeak (x : List ℚ) (p : Nat) : Prop :=
  ∃ l r : Nat, 0 < l ∧ l ≤ p ∧ p ≤ r ∧ r + 1 < x.length ∧ p = (l + r) / 2 ∧
    (∀ j, l ≤ j → j ≤ r → x.getD j 0 = x.getD l 0) ∧
    x.getD (l - 1) 0 < x.getD l 0 ∧ x.getD (r + 1) 0 < x.getD l 0

/-!
## Theorems
-/

/-- C10: with `k = 0` the noise-subspace extractor returns a matrix with
zero columns — the Python slice `E[:, :-0]` is `E[:, :0]`, the empty
column range — rather than the full eigenvector basis that the
mathematical definition of a noise subspace with zero sources would
give. -/
theorem noise_subspace_k_zero_empty (E : List (List ℚ)) :
    get_noise_subspace E 0 = [] ∧ (E ≠ [] → get_noise_subspace E 0 ≠ E) := by
  have h : get_noise_subspace E 0 = [] := by simp [get_noise_subspace]
  exact ⟨h, fun hne => h ▸ fun hh => hne hh.symm⟩

/-- Witness for `noise_subspace_k_zero_empty` at a concrete nonempty
eigenvector matrix. -/
theorem noise_subspace_k_zero_empty_witness :
    get_noise_subspace [[1], [0]] 0 = [] ∧
    get_noise_subspace [[1], [0]] 0 ≠ [[1], [0]] :=
  ⟨(noise_subspace_k_zero_empty [[1], [0]]).1,
   (noise_subspace_k_zero_empty [[1], [0]]).2 (by decide)⟩

/-- C4 counterexample: the claim says the extractor fails (propagates an
error) whenever `k ≥ n`.  It does not: `np.linalg.eigh` succeeds on any
Hermitian input regardless of `k`, and the subsequent basic slice
`E[:, :-k]` clamps its bounds and never raises.  For the 2×2 identity
covariance (whose `eigh` eigenvector matrix is the 2×2 identity) and
`k = n = 2` the extractor returns the 2×0 matrix — a result, not an
error. -/
theorem noise_subspace_k_ge_n_cex :
    get_noise_subspace [[1, 0], [0, 1]] 2 = [] := by decide

/-- C4 amended: for every `k ≥ n` the extractor does not fail; it
returns the `n×0` matrix (the column slice is empty). -/
theorem noise_subspace_k_ge_n_empty (E : List (List ℚ)) (k : Nat)
    (h : E.length ≤ k) : get_noise_subspace E k = [] := by
  unfold get_noise_subspace
  by_cases hk : k = 0
  · simp [hk]
  · have h0 : E.length - k = 0 := by omega
    simp [hk, h0]

/-- Witness for `noise_subspace_k_ge_n_empty` with `k` strictly larger
than the dimension. -/
theorem noise_subspace_k_ge_n_empty_witness :
    get_noise_subspace [[1, 0], [0, 1]] 3 = [] :=
  noise_subspace_k_ge_n_empty [[1, 0], [0, 1]] 3 (by decide)

/-- C7: for a Hermitian `R` with eigen-decomposition `E` (columns in
ascending order of the eigenvalues `lam`, as `np.linalg.eigh`
guarantees) and `0 < k < n`, the extractor returns exactly the first
`n − k` eigenvector columns: the result has `n − k` columns, column `j`
is `E`'s column `j`, it satisfies the eigenvector equation for the
`j`-th smallest eigenvalue, and that eigenvalue is no larger than any of
the `k` excluded (largest) ones. -/
theorem noise_subspace_smallest_eigenvectors
    (R E : List (List ℚ)) (lam : List ℚ) (n k : Nat)
    (hE : E.length = n) (hlam : lam.length = n)
    (hsorted : lam.Sorted (· ≤ ·))
    (heig : ∀ j, j < n →
      mulVec R (E.getD j []) = smulVec (lam.getD j 0) (E.getD j []))
    (hk0 : 0 < k) (hkn : k < n) :
    (get_noise_subspace E k).length = n - k ∧
    ∀ j, j < n - k →
      (get_noise_subspace E k).getD j [] = E.getD j [] ∧
      mulVec R ((get_noise_subspace E k).getD j []) =
        smulVec (lam.getD j 0) ((get_noise_subspace E k).getD j []) ∧
      ∀ m, n - k ≤ m → m < n → lam.getD j 0 ≤ lam.getD m 0 := by
  have hkne : k ≠ 0 := by omega
  have hdef : get_noise_subspace E k = E.take (n - k) := by
    simp [get_noise_subspace, hkne, hE]
  have hlen : (get_noise_subspace E k).length = n - k := by
    rw [hdef, List.length_take, hE]; omega
  refine ⟨hlen, fun j hj => ?_⟩
  have hjE : j < E.length := by omega
  have hjT : j < (E.take (n - k)).length := by
    rw [List.length_take, hE]; omega
  have hget : (get_noise_subspace E k).getD j [] = E.getD j [] := by
    rw [hdef, List.getD_eq_getElem _ _ hjT, List.getD_eq_getElem _ _ hjE]
    exact List.getElem_take E
  refine ⟨hget, ?_, fun m hm1 hm2 => ?_⟩
  · rw [hget]; exact heig j (by omega)
  · have hj' : j < lam.length := by omega
    have hm' : m < lam.length := by omega
    rw [List.getD_eq_getElem _ _ hj', List.getD_eq_getElem _ _ hm']
    exact hsorted.rel_get_of_lt (a := ⟨j, hj'⟩) (b := ⟨m, hm'⟩)
      (by simp only [Fin.mk_lt_mk]; omega)

/-- Witness for `noise_subspace_smallest_eigenvectors` on the diagonal
covariance `diag(1, 2)` with `k = 1`. -/
theorem noise_subspace_smallest_eigenvectors_witness :
    (get_noise_subspace [[1, 0], [0, 1]] 1).length = 2 - 1 ∧
    ∀ j, j < 2 - 1 →
      (get_noise_subspace [[1, 0], [0, 1]] 1).getD j [] =
        ([[1, 0], [0, 1]] : List (List ℚ)).getD j [] ∧
      mulVec [[1, 0], [0, 2]]
          ((get_noise_subspace [[1, 0], [0, 1]] 1).getD j []) =
        smulVec (([1, 2] : List ℚ).getD j 0)
          ((get_noise_subspace [[1, 0], [0, 1]] 1).getD j []) ∧
      ∀ m, 2 - 1 ≤ m → m < 2 →
        ([1, 2] : List ℚ).getD j 0 ≤ ([1, 2] : List ℚ).getD m 0 :=
  noise_subspace_smallest_eigenvectors [[1, 0], [0, 2]] [[1, 0], [0, 1]]
    [1, 2] 2 1 (by decide) (by decide)
    (by simp [List.sorted_cons])
    (by intro j hj; interval_cases j <;> simp [mulVec, smulVec])
    (by decide) (by decide)

/-- C6: from a fresh provider state, with caching enabled the
array-design collaborator is invoked exactly once over any positive
number of calls (`min n 1` over `n` calls) and every call returns the
same computed matrix; with caching disabled every call recomputes
(`n` invocations over `n` calls). -/
theorem steering_matrix_caching {M : Type} (computeA : M) (ec : Bool) (n : Nat) :
    (providerAfter computeA ec ⟨none, 0⟩ n).computeCount =
      (if ec then min n 1 else n) ∧
    providerReturns computeA ec ⟨none, 0⟩ n = List.replicate n computeA := by
  have closed : ∀ m, providerAfter computeA ec ⟨none, 0⟩ m =
      if ec then (if m = 0 then ⟨none, 0⟩ else ⟨some computeA, 1⟩)
      else ⟨none, m⟩ := by
    intro m
    induction m with
    | zero => cases ec <;> simp [providerAfter]
    | succ m ih =>
        cases ec
        · simp only [Bool.false_eq_true, if_false] at ih ⊢
          simp [providerAfter, ih, _get_steering_matrix]
        · simp only [if_true] at ih ⊢
          by_cases hm : m = 0
          · subst hm
            simp [providerAfter, ih, _get_steering_matrix]
          · simp [providerAfter, ih, hm, _get_steering_matrix]
  constructor
  · rw [closed]
    cases ec
    · simp
    · by_cases hn : n = 0
      · simp [hn]
      · simp only [if_true, hn, if_false]
        show 1 = min n 1
        omega
  · induction n with
    | zero => simp [providerReturns]
    | succ n ih =>
        rw [providerReturns, ih, closed]
        have hval : (_get_steering_matrix computeA ec
            (if ec then (if n = 0 then ⟨none, 0⟩ else ⟨some computeA, 1⟩)
             else ⟨none, n⟩)).1 = computeA := by
          cases ec <;> by_cases hn : n = 0 <;>
            simp [hn, _get_steering_matrix]
        rw [hval, List.replicate_succ']

/-- C2: when the peak finder detects strictly fewer peaks than `k`,
`_estimate` returns `resolved = False` with `estimates = None` (and a
`None` spectrum when `return_spectrum` was requested), invokes no
refinement, and performs no selection or sorting — the result is the
early-return record, whatever the remaining arguments are. -/
theorem estimate_under_resolution {α : Type} (shape : List Nat)
    (placement : List α) (spFlat : List ℚ) (peaks : List (List Nat))
    (k : Nat) (return_spectrum refine_estimates : Bool) (rd ri : Nat)
    (d : α) (h : peaks.length < k) :
    _estimate shape placement spFlat peaks k return_spectrum
      refine_estimates rd ri d =
      { resolved := false, estimates := none,
        spectrum := if return_spectrum then some none else none,
        refineCall := none } := by
  simp [_estimate, h]

/-- Witness for `estimate_under_resolution`: no peak detected, one
source requested, spectrum requested, refinement requested. -/
theorem estimate_under_resolution_witness :
    _estimate [3] ([10, 20, 30] : List ℚ) [0, 0, 0] [] 1 true true 10 3 0 =
      { resolved := false, estimates := none,
        spectrum := some none, refineCall := none } :=
  estimate_under_resolution [3] [10, 20, 30] [0, 0, 0] [] 1 true true 10 3 0
    (by decide)

/-- C3 (code bug): the source invokes
`self._refine_estimates(f_sp, estimates, peak_indices)` without passing
`refinement_density` or `refinement_iters`, so refinement always runs
with the `_refine_estimates` defaults `density = 10, n_iters = 3`: the
caller-supplied values have no effect on the call at all, contradicting
`_estimate`'s own parameter documentation and the claim. -/
theorem estimate_ignores_refinement_params {α : Type} (shape : List Nat)
    (placement : List α) (spFlat : List ℚ) (peaks : List (List Nat))
    (k : Nat) (rs : Bool) (rd ri rd' ri' : Nat) (d : α)
    (hk : ¬ peaks.length < k) :
    _estimate shape placement spFlat peaks k rs true rd ri d =
      _estimate shape placement spFlat peaks k rs true rd' ri' d ∧
    ∃ c, (_estimate shape placement spFlat peaks k rs true rd ri d).refineCall
        = some c ∧ c.density = 10 ∧ c.n_iters = 3 := by
  refine ⟨rfl, ?_⟩
  simp only [_estimate, hk, if_false, if_true]
  exact ⟨_, rfl, rfl, rfl⟩

/-- Witness for `estimate_ignores_refinement_params`: the caller passes
`refinement_density = 5, refinement_iters = 1` (and `7, 2`), yet the
recorded refinement invocation uses `density = 10, n_iters = 3`. -/
theorem estimate_ignores_refinement_params_witness :
    _estimate [5] ([1, 2, 3, 4, 5] : List ℚ) [0, 3, 0, 5, 0] [[1], [3]]
        1 false true 5 1 0 =
      _estimate [5] ([1, 2, 3, 4, 5] : List ℚ) [0, 3, 0, 5, 0] [[1], [3]]
        1 false true 7 2 0 ∧
    ∃ c, (_estimate [5] ([1, 2, 3, 4, 5] : List ℚ) [0, 3, 0, 5, 0]
        [[1], [3]] 1 false true 5 1 0).refineCall = some c ∧
      c.density = 10 ∧ c.n_iters = 3 :=
  estimate_ignores_refinement_params [5] [1, 2, 3, 4, 5] [0, 3, 0, 5, 0]
    [[1], [3]] 1 false 5 1 7 2 0 (by decide)

/-- Indexing a list at each index of `range` reproduces the list. -/
theorem map_getD_range {α : Type} (l : List α) (d : α) :
    (List.range l.length).map (fun i => l.getD i d) = l := by
  apply List.ext_getElem
  · simp
  · intro n h1 h2
    rw [List.getElem_map, List.getElem_range, List.getD_eq_getElem _ _ h2]

/-- C9: with `k = 0` the guard `n_peaks < 0` can never fire, so
`_estimate` reports `resolved = True`; the Python slice
`np.argsort(peak_values)[-0:]` is the whole argsort, so the estimates
contain every detected peak (one entry per peak, in ascending flattened
grid index order) rather than zero entries. -/
theorem estimate_k_zero_returns_all_peaks {α : Type} (shape : List Nat)
    (placement : List α) (spFlat : List ℚ) (peaks : List (List Nat))
    (rs : Bool) (rd ri : Nat) (d : α) :
    (_estimate shape placement spFlat peaks 0 rs false rd ri d).resolved = true ∧
    ∃ flat : List Nat,
      flat.Perm (peaks.map (ravel shape)) ∧
      flat.Sorted (· ≤ ·) ∧
      flat.length = peaks.length ∧
      (_estimate shape placement spFlat peaks 0 rs false rd ri d).estimates =
        some (flat.map (fun fi => placement.getD fi d)) := by
  have hguard : ¬ peaks.length < 0 := Nat.not_lt_zero _
  set v := peakValues shape spFlat peaks with hv
  have hvlen : v.length = peaks.length := by
    simp [hv, peakValues]
  set flat := List.insertionSort (· ≤ ·)
    (((pySliceLast (npArgsort v) 0).map (fun i => peaks.getD i [])).map
      (ravel shape)) with hflat
  have hslice : pySliceLast (npArgsort v) 0 = npArgsort v := by
    simp [pySliceLast]
  have hperm0 : (npArgsort v).Perm (List.range peaks.length) := by
    rw [npArgsort, hvlen]
    exact List.perm_insertionSort _ _
  have hpeaks : (List.range peaks.length).map (fun i => peaks.getD i []) =
      peaks := map_getD_range peaks []
  have hperm : flat.Perm (peaks.map (ravel shape)) := by
    rw [hflat, hslice]
    refine (List.perm_insertionSort _ _).trans ?_
    have h1 : ((npArgsort v).map (fun i => peaks.getD i [])).Perm
        ((List.range peaks.length).map (fun i => peaks.getD i [])) :=
      hperm0.map _
    rw [hpeaks] at h1
    exact h1.map _
  refine ⟨by simp [_estimate], flat, hperm, ?_, ?_, ?_⟩
  · exact List.sorted_insertionSort _ _
  · rw [hperm.length_eq, List.length_map]
  · simp only [_estimate, hguard, if_false]

/-- C1: whenever `_estimate` resolves with `1 ≤ k` detected-peak budget
(`k` within the §4.4 input contract) and at least `k` detected peaks,
the returned estimates are the grid points of `k` distinct detected
peaks whose spectrum values dominate every unselected peak, listed in
ascending flattened-grid-index order (not magnitude order), with exactly
`k` entries. -/
theorem estimate_selects_top_k_sorted_by_index {α : Type} (shape : List Nat)
    (placement : List α) (spFlat : List ℚ) (peaks : List (List Nat))
    (k : Nat) (rs : Bool) (rd ri : Nat) (d : α)
    (hk : 1 ≤ k) (hkp : k ≤ peaks.length) :
    (_estimate shape placement spFlat peaks k rs false rd ri d).resolved = true ∧
    ∃ top flat : List Nat,
      top.Nodup ∧ top.length = k ∧ (∀ i ∈ top, i < peaks.length) ∧
      (∀ i ∈ top, ∀ j, j < peaks.length → j ∉ top →
        (peakValues shape spFlat peaks).getD j 0 ≤
          (peakValues shape spFlat peaks).getD i 0) ∧
      flat.Perm (top.map (fun i => ravel shape (peaks.getD i []))) ∧
      flat.Sorted (· ≤ ·) ∧ flat.length = k ∧
      (_estimate shape placement spFlat peaks k rs false rd ri d).estimates =
        some (flat.map (fun fi => placement.getD fi d)) := by
  have hguard : ¬ peaks.length < k := Nat.not_lt.mpr hkp
  set v := peakValues shape spFlat peaks with hv
  have hvlen : v.length = peaks.length := by simp [hv, peakValues]
  set r := fun i j : Nat => v.getD i 0 ≤ v.getD j 0 with hr
  haveI htot : IsTotal Nat r := ⟨fun a b => le_total _ _⟩
  haveI htrans : IsTrans Nat r := ⟨fun _ _ _ hab hbc => le_trans hab hbc⟩
  have hasort : npArgsort v = List.insertionSort r (List.range v.length) := rfl
  set asort := npArgsort v with hasortdef
  have hperm0 : asort.Perm (List.range peaks.length) := by
    rw [hasort, hvlen]
    exact List.perm_insertionSort _ _
  have halen : asort.length = peaks.length := by
    rw [hperm0.length_eq, List.length_range]
  have hsorted : List.Pairwise r asort := by
    rw [hasort]
    exact List.sorted_insertionSort r _
  set top := pySliceLast asort k with htopdef
  have htop : top = asort.drop (asort.length - k) := by
    rw [htopdef, pySliceLast, if_neg (by omega : ¬ k = 0)]
  have htopnodup : top.Nodup := by
    rw [htop]
    exact (List.drop_sublist _ _).nodup
      (hperm0.nodup_iff.mpr (List.nodup_range _))
  have htoplen : top.length = k := by
    rw [htop, List.length_drop]
    omega
  have htopmem : ∀ i ∈ top, i < peaks.length := by
    intro i hi
    rw [htop] at hi
    have : i ∈ asort := (List.drop_sublist _ _).subset hi
    exact List.mem_range.mp (hperm0.mem_iff.mp this)
  have hdom : ∀ i ∈ top, ∀ j, j < peaks.length → j ∉ top →
      v.getD j 0 ≤ v.getD i 0 := by
    intro i hi j hj hjn
    have hjas : j ∈ asort := hperm0.mem_iff.mpr (List.mem_range.mpr hj)
    have hsplit := List.take_append_drop (asort.length - k) asort
    have hpw := hsorted
    rw [← hsplit] at hpw
    obtain ⟨-, -, hcross⟩ := List.pairwise_append.mp hpw
    rw [← hsplit] at hjas
    rcases List.mem_append.mp hjas with hjt | hjd
    · exact hcross j hjt i (htop ▸ hi)
    · exact absurd (htop ▸ hjd) hjn
  set flat := List.insertionSort (· ≤ ·)
    ((top.map (fun i => peaks.getD i [])).map (ravel shape)) with hflatdef
  have hfperm : flat.Perm (top.map (fun i => ravel shape (peaks.getD i []))) := by
    rw [hflatdef]
    refine (List.perm_insertionSort _ _).trans ?_
    rw [List.map_map]
    rfl
  refine ⟨by simp [_estimate, hguard], top, flat, htopnodup, htoplen, htopmem,
    hdom, hfperm, List.sorted_insertionSort _ _, ?_, ?_⟩
  · rw [hfperm.length_eq, List.length_map, htoplen]
  · simp only [_estimate, hguard, if_false]

/-- Witness for `estimate_selects_top_k_sorted_by_index` on the §8
example: grid shape `(5,)`, spectrum `[0,3,0,5,0]`, peaks at indices 1
and 3, `k = 2`. -/
theorem estimate_selects_top_k_sorted_by_index_witness :
    (_estimate [5] ([10, 20, 30, 40, 50] : List ℚ) [0, 3, 0, 5, 0]
      [[1], [3]] 2 false false 10 3 0).resolved = true ∧
    ∃ top flat : List Nat,
      top.Nodup ∧ top.length = 2 ∧ (∀ i ∈ top, i < ([[1], [3]] : List (List Nat)).length) ∧
      (∀ i ∈ top, ∀ j, j < ([[1], [3]] : List (List Nat)).length → j ∉ top →
        (peakValues [5] [0, 3, 0, 5, 0] [[1], [3]]).getD j 0 ≤
          (peakValues [5] [0, 3, 0, 5, 0] [[1], [3]]).getD i 0) ∧
      flat.Perm (top.map (fun i => ravel [5] (([[1], [3]] : List (List Nat)).getD i []))) ∧
      flat.Sorted (· ≤ ·) ∧ flat.length = 2 ∧
      (_estimate [5] ([10, 20, 30, 40, 50] : List ℚ) [0, 3, 0, 5, 0]
        [[1], [3]] 2 false false 10 3 0).estimates =
        some (flat.map (fun fi => ([10, 20, 30, 40, 50] : List ℚ).getD fi 0)) :=
  estimate_selects_top_k_sorted_by_index [5] [10, 20, 30, 40, 50]
    [0, 3, 0, 5, 0] [[1], [3]] 2 false 10 3 0 (by decide) (by decide)

/-- The plateau scan never moves backwards. -/
theorem plateauScan_ge (x : List ℚ) (iMax : Nat) (v : ℚ) :
    ∀ fuel j, j ≤ plateauScan x iMax v fuel j := by
  intro fuel
  induction fuel with
  | zero => intro j; simp [plateauScan]
  | succ fuel ih =>
      intro j
      simp only [plateauScan]
      by_cases h : j < iMax ∧ x.getD j 0 = v
      · rw [if_pos h]; exact le_trans (Nat.le_succ j) (ih (j + 1))
      · rw [if_neg h]

/-- The plateau scan never moves past `iMax`. -/
theorem plateauScan_le (x : List ℚ) (iMax : Nat) (v : ℚ) :
    ∀ fuel j, j ≤ iMax → plateauScan x iMax v fuel j ≤ iMax := by
  intro fuel
  induction fuel with
  | zero => intro j hj; simpa [plateauScan] using hj
  | succ fuel ih =>
      intro j hj
      simp only [plateauScan]
      by_cases h : j < iMax ∧ x.getD j 0 = v
      · rw [if_pos h]; exact ih (j + 1) h.1
      · rwa [if_neg h]

/-- Every index passed over by the plateau scan is below `iMax` and
holds the plateau value `v`. -/
theorem plateauScan_plateau (x : List ℚ) (iMax : Nat) (v : ℚ) :
    ∀ fuel j m, j ≤ m → m < plateauScan x iMax v fuel j →
      m < iMax ∧ x.getD m 0 = v := by
  intro fuel
  induction fuel with
  | zero =>
      intro j m hjm hm
      simp only [plateauScan] at hm
      omega
  | succ fuel ih =>
      intro j m hjm hm
      simp only [plateauScan] at hm
      by_cases h : j < iMax ∧ x.getD j 0 = v
      · rw [if_pos h] at hm
        rcases Nat.eq_or_lt_of_le hjm with rfl | hlt
        · exact h
        · exact ih (j + 1) m hlt hm
      · rw [if_neg h] at hm
        omega

/-- Soundness of the peak-finding loop: every index it reports is an
interior plateau local maximum. -/
theorem lmLoop_sound (x : List ℚ) (iMax : Nat) (hIM : iMax < x.length) :
    ∀ fuel i, 1 ≤ i → ∀ p ∈ lmLoop x iMax fuel i,
      0 < p ∧ p + 1 < x.length ∧ IsPlateauPeak x p := by
  intro fuel
  induction fuel with
  | zero => intro i hi p hp; simp [lmLoop] at hp
  | succ fuel ih =>
      intro i hi p hp
      simp only [lmLoop] at hp
      by_cases hlt : i < iMax
      · rw [if_pos hlt] at hp
        by_cases hrise : x.getD (i - 1) 0 < x.getD i 0
        · rw [if_pos hrise] at hp
          set ia := plateauScan x iMax (x.getD i 0) iMax (i + 1) with hia
          by_cases hfall : x.getD ia 0 < x.getD i 0
          · rw [if_pos hfall] at hp
            rcases List.mem_cons.mp hp with rfl | hp'
            · have h1 : i + 1 ≤ ia := plateauScan_ge _ _ _ _ _
              have h2 : ia ≤ iMax := plateauScan_le _ _ _ _ _ (by omega)
              refine ⟨by omega, by omega, i, ia - 1, by omega, by omega,
                by omega, by omega, rfl, ?_, hrise, ?_⟩
              · intro j hj1 hj2
                rcases Nat.eq_or_lt_of_le hj1 with rfl | hlt'
                · rfl
                · exact (plateauScan_plateau x iMax (x.getD i 0) iMax (i + 1)
                    j hlt' (by omega)).2
              · have hia1 : ia - 1 + 1 = ia := by omega
                rw [hia1]
                exact hfall
            · exact ih (ia + 1) (by omega) p hp'
          · rw [if_neg hfall] at hp
            exact ih (i + 1) (by omega) p hp
        · rw [if_neg hrise] at hp
          exact ih (i + 1) (by omega) p hp
      · rw [if_neg hlt] at hp
        simp at hp

/-- C8 counterexample: on the plateau input `[0,1,1,0]` the default 1-D
peak finder (scipy's `find_peaks`) reports index 1 — the midpoint of the
flat run — although `x[1]` is not strictly greater than its right
neighbor `x[2]`, contradicting "reports only strict interior local
maxima (points greater than both immediate neighbors)". -/
theorem find_peaks_plateau_cex :
    find_peaks_1d [0, 1, 1, 0] = [1] ∧
    ¬ ([0, 1, 1, 0] : List ℚ).getD 2 0 < ([0, 1, 1, 0] : List ℚ).getD 1 0 := by
  decide

/-- C8 amended: every index reported by the default 1-D peak finder is
an interior index (never the first or last sample) and is the midpoint
of a plateau of equal values strictly greater than the values adjacent
to the plateau on both sides — which for width-1 plateaus is exactly
"strictly greater than both immediate neighbors" — and on `[0,1,0,2,0]`
the reported peaks are exactly the indices 1 and 3. -/
theorem find_peaks_interior_plateau :
    (∀ x : List ℚ, ∀ p ∈ find_peaks_1d x,
      0 < p ∧ p + 1 < x.length ∧ IsPlateauPeak x p) ∧
    find_peaks_1d [0, 1, 0, 2, 0] = [1, 3] := by
  constructor
  · intro x p hp
    cases x with
    | nil => simp [find_peaks_1d, lmLoop] at hp
    | cons y ys =>
        exact lmLoop_sound (y :: ys) ((y :: ys).length - 1)
          (by simp) _ 1 le_rfl p hp
  · decide

/-- Witness for `find_peaks_interior_plateau` at the reported peak `1`
of `[0,1,0,2,0]`. -/
theorem find_peaks_interior_plateau_witness :
    (0 < 1 ∧ 1 + 1 < ([0, 1, 0, 2, 0] : List ℚ).length ∧
      IsPlateauPeak [0, 1, 0, 2, 0] 1) ∧
    find_peaks_1d [0, 1, 0, 2, 0] = [1, 3] :=
  ⟨find_peaks_interior_plateau.1 [0, 1, 0, 2, 0] 1 (by decide),
   find_peaks_interior_plateau.2⟩

/-- Setting an index leaves every other index unchanged (total form). -/
theorem getD_set_ne {α : Type} (l : List α) (i j : Nat) (v dflt : α)
    (h : i ≠ j) : (l.set i v).getD j dflt = l.getD j dflt := by
  rw [List.getD_eq_getElem?_getD, List.getD_eq_getElem?_getD,
    List.getElem?_set, if_neg h]

/-- Setting an in-range index stores the value (total form). -/
theorem getD_set_self {α : Type} (l : List α) (i : Nat) (v dflt : α)
    (h : i < l.length) : (l.set i v).getD i dflt = v := by
  rw [List.getD_eq_getElem?_getD, List.getElem?_set, if_pos rfl, if_pos h]
  rfl

/-- Effect of one `refineBody` application on each state component. -/
theorem refineBody_spec {α : Type} (sp : List α → List ℚ)
    (mkGrid : SubGrid α → List Nat → Nat → SubGrid α)
    (density n_iters : Nat) (d : α) (r : Nat) (s : RefineState α) (i : Nat) :
    (refineBody sp mkGrid density n_iters d r s i).locations =
      s.locations.set i (subgridLoc sp d (s.subgrids.getD i ⟨[], []⟩)) ∧
    (refineBody sp mkGrid density n_iters d r s i).subgrids =
      (if r = n_iters - 1 then s.subgrids
       else s.subgrids.set i
         (subgridNext sp mkGrid density n_iters r (s.subgrids.getD i ⟨[], []⟩))) ∧
    (refineBody sp mkGrid density n_iters d r s i).writes =
      s.writes ++ [(i, subgridLoc sp d (s.subgrids.getD i ⟨[], []⟩))] ∧
    (refineBody sp mkGrid density n_iters d r s i).gridMakes =
      s.gridMakes ++ (if r = n_iters - 1 then [] else [i]) := by
  by_cases hr : r = n_iters - 1 <;>
    simp [refineBody, subgridLoc, subgridNext, hr]

/-- Invariants of the partial inner fold of a refinement round: indices
not yet processed are untouched; processed indices carry the per-index
location write and grid update; the traces record one write per
processed index and one grid construction per processed index except in
the final round. -/
theorem refineFold_spec {α : Type} (sp : List α → List ℚ)
    (mkGrid : SubGrid α → List Nat → Nat → SubGrid α)
    (density n_iters : Nat) (d : α) (r : Nat) (s : RefineState α)
    (hls : s.locations.length = s.subgrids.length) :
    ∀ m, m ≤ s.subgrids.length →
      ((List.range m).foldl (refineBody sp mkGrid density n_iters d r) s).locations.length
        = s.locations.length ∧
      ((List.range m).foldl (refineBody sp mkGrid density n_iters d r) s).subgrids.length
        = s.subgrids.length ∧
      (∀ j, m ≤ j →
        ((List.range m).foldl (refineBody sp mkGrid density n_iters d r) s).subgrids.getD j ⟨[], []⟩
          = s.subgrids.getD j ⟨[], []⟩) ∧
      (∀ j, j < m →
        ((List.range m).foldl (refineBody sp mkGrid density n_iters d r) s).locations.getD j d
          = subgridLoc sp d (s.subgrids.getD j ⟨[], []⟩)) ∧
      (∀ j, j < m →
        ((List.range m).foldl (refineBody sp mkGrid density n_iters d r) s).subgrids.getD j ⟨[], []⟩
          = subgridNext sp mkGrid density n_iters r (s.subgrids.getD j ⟨[], []⟩)) ∧
      ((List.range m).foldl (refineBody sp mkGrid density n_iters d r) s).writes
        = s.writes ++ (List.range m).map
            (fun j => (j, subgridLoc sp d (s.subgrids.getD j ⟨[], []⟩))) ∧
      ((List.range m).foldl (refineBody sp mkGrid density n_iters d r) s).gridMakes
        = s.gridMakes ++ (if r = n_iters - 1 then [] else List.range m) := by
  intro m
  induction m with
  | zero =>
      intro _
      refine ⟨rfl, rfl, fun j _ => rfl, fun j hj => absurd hj (by omega),
        fun j hj => absurd hj (by omega), by simp, by simp⟩
  | succ m ih =>
      intro hm
      obtain ⟨ih1, ih2, ih3, ih4, ih5, ih6, ih7⟩ := ih (by omega)
      set t := (List.range m).foldl (refineBody sp mkGrid density n_iters d r) s
        with ht
      have hstep : (List.range (m + 1)).foldl
          (refineBody sp mkGrid density n_iters d r) s =
          refineBody sp mkGrid density n_iters d r t m := by
        rw [List.range_succ, List.foldl_append]
        rfl
      obtain ⟨hb1, hb2, hb3, hb4⟩ :=
        refineBody_spec sp mkGrid density n_iters d r t m
      have hgm : t.subgrids.getD m ⟨[], []⟩ = s.subgrids.getD m ⟨[], []⟩ :=
        ih3 m le_rfl
      have hmloc : m < t.locations.length := by
        rw [ih1, hls]; omega
      have hmsub : m < t.subgrids.length := by
        rw [ih2]; omega
      rw [hstep]
      refine ⟨?_, ?_, ?_, ?_, ?_, ?_, ?_⟩
      · rw [hb1, List.length_set, ih1]
      · rw [hb2]
        by_cases hr : r = n_iters - 1
        · rw [if_pos hr, ih2]
        · rw [if_neg hr, List.length_set, ih2]
      · intro j hj
        rw [hb2]
        by_cases hr : r = n_iters - 1
        · rw [if_pos hr]
          exact ih3 j (by omega)
        · rw [if_neg hr, getD_set_ne _ _ _ _ _ (by omega)]
          exact ih3 j (by omega)
      · intro j hj
        rcases Nat.lt_succ_iff_lt_or_eq.mp hj with hj' | rfl
        · rw [hb1, getD_set_ne _ _ _ _ _ (by omega)]
          exact ih4 j hj'
        · rw [hb1, hgm, getD_set_self _ _ _ _ hmloc]
      · intro j hj
        rw [hb2]
        by_cases hr : r = n_iters - 1
        · rw [if_pos hr]
          rcases Nat.lt_succ_iff_lt_or_eq.mp hj with hj' | rfl
          · exact ih5 j hj'
          · rw [hgm, subgridNext, if_pos hr]
        · rw [if_neg hr]
          rcases Nat.lt_succ_iff_lt_or_eq.mp hj with hj' | rfl
          · rw [getD_set_ne _ _ _ _ _ (by omega)]
            exact ih5 j hj'
          · rw [hgm, getD_set_self _ _ _ _ hmsub]
      · rw [hb3, ih6, hgm, List.range_succ, List.map_append,
          List.append_assoc]
        rfl
      · rw [hb4, ih7]
        by_cases hr : r = n_iters - 1
        · simp [hr]
        · rw [if_neg hr, if_neg hr, if_neg hr, List.range_succ,
            List.append_assoc]

/-- `refineChainGrid` advances by `subgridNext`. -/
theorem refineChainGrid_succ {α : Type} (sp : List α → List ℚ)
    (mkGrid : SubGrid α → List Nat → Nat → SubGrid α)
    (density n_iters : Nat) (subgrids0 : List (SubGrid α)) (i r : Nat) :
    refineChainGrid sp mkGrid density n_iters subgrids0 i (r + 1) =
      subgridNext sp mkGrid density n_iters r
        (refineChainGrid sp mkGrid density n_iters subgrids0 i r) := by
  rw [refineChainGrid, subgridNext]

/-- Invariants of the refinement outer loop after `r` rounds: lengths
are preserved, sub-grid `i` equals the per-estimate chain grid,
location `i` holds the most recent chain write, and the traces list the
chain writes round by round. -/
theorem refineRounds_spec {α : Type} (sp : List α → List ℚ)
    (mkGrid : SubGrid α → List Nat → Nat → SubGrid α)
    (density n_iters : Nat) (d : α) (locations0 : List α)
    (subgrids0 : List (SubGrid α))
    (hlen : subgrids0.length = locations0.length) :
    ∀ r,
      (refineRounds sp mkGrid density n_iters d
        ⟨locations0, subgrids0, [], []⟩ r).locations.length
        = locations0.length ∧
      (refineRounds sp mkGrid density n_iters d
        ⟨locations0, subgrids0, [], []⟩ r).subgrids.length
        = subgrids0.length ∧
      (∀ i, i < subgrids0.length →
        (refineRounds sp mkGrid density n_iters d
          ⟨locations0, subgrids0, [], []⟩ r).subgrids.getD i ⟨[], []⟩
          = refineChainGrid sp mkGrid density n_iters subgrids0 i r) ∧
      (∀ i, i < subgrids0.length →
        (refineRounds sp mkGrid density n_iters d
          ⟨locations0, subgrids0, [], []⟩ r).locations.getD i d
          = if r = 0 then locations0.getD i d
            else refineChainLoc sp mkGrid density n_iters subgrids0 d i (r - 1)) ∧
      (refineRounds sp mkGrid density n_iters d
        ⟨locations0, subgrids0, [], []⟩ r).writes
        = (List.range r).flatMap (fun r' => (List.range subgrids0.length).map
            (fun i => (i, refineChainLoc sp mkGrid density n_iters subgrids0 d i r'))) ∧
      (refineRounds sp mkGrid density n_iters d
        ⟨locations0, subgrids0, [], []⟩ r).gridMakes
        = (List.range r).flatMap (fun r' =>
            if r' = n_iters - 1 then [] else List.range subgrids0.length) := by
  intro r
  induction r with
  | zero =>
      refine ⟨rfl, rfl, fun i _ => rfl, fun i _ => rfl, rfl, rfl⟩
  | succ r ih =>
      obtain ⟨ih1, ih2, ih3, ih4, ih5, ih6⟩ := ih
      set A := refineRounds sp mkGrid density n_iters d
        ⟨locations0, subgrids0, [], []⟩ r with hA
      have hstep : refineRounds sp mkGrid density n_iters d
          ⟨locations0, subgrids0, [], []⟩ (r + 1) =
          refineRound sp mkGrid density n_iters d r A := by
        rw [refineRounds, List.range_succ, List.foldl_append]
        rfl
      have hls : A.locations.length = A.subgrids.length := by
        rw [ih1, ih2, hlen]
      have hround := refineFold_spec sp mkGrid density n_iters d r A hls
        A.subgrids.length le_rfl
      have hrr : refineRound sp mkGrid density n_iters d r A =
          (List.range A.subgrids.length).foldl
            (refineBody sp mkGrid density n_iters d r) A := rfl
      obtain ⟨hr1, hr2, hr3, hr4, hr5, hr6, hr7⟩ := hround
      rw [hstep, hrr]
      refine ⟨?_, ?_, ?_, ?_, ?_, ?_⟩
      · rw [hr1, ih1]
      · rw [hr2, ih2]
      · intro i hi
        rw [hr5 i (by omega : i < A.subgrids.length), ih3 i hi,
          refineChainGrid_succ]
      · intro i hi
        rw [hr4 i (by rw [ih2]; exact hi), ih3 i hi]
        simp [refineChainLoc, subgridLoc]
      · rw [hr6, ih5, List.range_succ, List.flatMap_append,
          List.flatMap_singleton]
        congr 1
        have hSe : A.subgrids.length = subgrids0.length := ih2
        rw [hSe]
        exact List.map_congr_left (fun j hj => by
          rw [ih3 j (List.mem_range.mp hj)]
          simp [refineChainLoc, subgridLoc])
      · rw [hr7, ih6, List.range_succ, List.flatMap_append,
          List.flatMap_singleton, ih2]

/-- Counting the writes at index `i` in the round-by-round write trace:
one write per round. -/
theorem countP_chain_writes {α : Type} (c : Nat → Nat → α) (R S i : Nat)
    (hi : i < S) :
    (((List.range R).flatMap (fun r => (List.range S).map
      (fun j => (j, c j r)))).countP (fun w => w.1 == i)) = R := by
  induction R with
  | zero => rfl
  | succ R ih =>
      rw [List.range_succ, List.flatMap_append, List.countP_append, ih,
        List.flatMap_singleton, List.countP_map]
      have hcount : List.countP
          ((fun w : Nat × α => w.1 == i) ∘ (fun j => (j, c j R)))
          (List.range S) = 1 := by
        have h1 := List.count_eq_one_of_mem (List.nodup_range S)
          (List.mem_range.mpr hi)
        simpa [List.count] using h1
      rw [hcount]

/-- Dropping the final-round entry of an `if`-guarded round trace. -/
theorem flatMap_range_sub_one {β : Type} (f : List β) (m : Nat)
    (hm : 1 ≤ m) :
    (List.range m).flatMap (fun r' => if r' = m - 1 then [] else f) =
      (List.range (m - 1)).flatMap (fun _ => f) := by
  obtain ⟨n, rfl⟩ : ∃ n, m = n + 1 := ⟨m - 1, by omega⟩
  simp only [Nat.add_sub_cancel]
  rw [List.range_succ, List.flatMap_append, List.flatMap_singleton,
    if_pos rfl, List.append_nil, List.flatMap_def, List.flatMap_def]
  congr 1
  exact List.map_congr_left (fun r' hr' =>
    if_neg (by have := List.mem_range.mp hr'; omega))

/-- C5: a refinement run with parameters `density` and `n_iters ≥ 1`
overwrites each estimate's location exactly `n_iters` times, each time
with the sub-grid point at the flattened argmax of the spectrum
evaluated on that estimate's current sub-grid (the per-estimate chain
`refineChainLoc`); a finer sub-grid is constructed after every round
except the final one (`n_iters - 1` constructions per estimate); the
locations list keeps its length, and position `i` of the result is
determined by position `i` of the inputs alone — never reordered or
resized. -/
theorem refine_estimates_per_estimate_chain {α : Type} (sp : List α → List ℚ)
    (mkGrid : SubGrid α → List Nat → Nat → SubGrid α)
    (locations0 : List α) (subgrids0 : List (SubGrid α))
    (density n_iters : Nat) (d : α)
    (hlen : subgrids0.length = locations0.length) (hn : 1 ≤ n_iters) :
    (_refine_estimates sp mkGrid locations0 subgrids0 density n_iters d).locations.length
      = locations0.length ∧
    (_refine_estimates sp mkGrid locations0 subgrids0 density n_iters d).writes
      = (List.range n_iters).flatMap (fun r => (List.range locations0.length).map
          (fun i => (i, refineChainLoc sp mkGrid density n_iters subgrids0 d i r))) ∧
    (∀ i, i < locations0.length →
      ((_refine_estimates sp mkGrid locations0 subgrids0 density n_iters d).writes.countP
        (fun w => w.1 == i)) = n_iters) ∧
    (_refine_estimates sp mkGrid locations0 subgrids0 density n_iters d).gridMakes
      = (List.range (n_iters - 1)).flatMap (fun _ => List.range locations0.length) ∧
    (∀ i, i < locations0.length →
      (_refine_estimates sp mkGrid locations0 subgrids0 density n_iters d).locations.getD i d
        = refineChainLoc sp mkGrid density n_iters subgrids0 d i (n_iters - 1)) := by
  have hre : _refine_estimates sp mkGrid locations0 subgrids0 density n_iters d =
      refineRounds sp mkGrid density n_iters d
        ⟨locations0, subgrids0, [], []⟩ n_iters := rfl
  obtain ⟨h1, h2, h3, h4, h5, h6⟩ :=
    refineRounds_spec sp mkGrid density n_iters d locations0 subgrids0 hlen
      n_iters
  rw [hre]
  refine ⟨h1, ?_, ?_, ?_, ?_⟩
  · rw [h5, hlen]
  · intro i hi
    rw [h5, countP_chain_writes _ _ _ _ (by omega : i < subgrids0.length)]
  · rw [h6, flatMap_range_sub_one _ n_iters hn, hlen]
  · intro i hi
    rw [h4 i (by omega), if_neg (by omega : ¬ n_iters = 0)]

/-- Witness for `refine_estimates_per_estimate_chain`: one estimate,
sub-grid `⟨[2], [3, 7]⟩`, halving refinement, two rounds. -/
theorem refine_estimates_per_estimate_chain_witness :
    (_refine_estimates (fun pl => pl)
      (fun g _ _ => SubGrid.mk g.shape (g.placement.map (fun q => q / 2)))
      ([0] : List ℚ) [SubGrid.mk [2] [3, 7]] 4 2 0).locations.length = 1 ∧
    (_refine_estimates (fun pl => pl)
      (fun g _ _ => SubGrid.mk g.shape (g.placement.map (fun q => q / 2)))
      ([0] : List ℚ) [SubGrid.mk [2] [3, 7]] 4 2 0).writes
      = (List.range 2).flatMap (fun r => (List.range 1).map
          (fun i => (i, refineChainLoc (fun pl => pl)
            (fun g _ _ => SubGrid.mk g.shape (g.placement.map (fun q => q / 2)))
            4 2 [SubGrid.mk [2] [3, 7]] 0 i r))) ∧
    (∀ i, i < 1 →
      ((_refine_estimates (fun pl => pl)
        (fun g _ _ => SubGrid.mk g.shape (g.placement.map (fun q => q / 2)))
        ([0] : List ℚ) [SubGrid.mk [2] [3, 7]] 4 2 0).writes.countP
          (fun w => w.1 == i)) = 2) ∧
    (_refine_estimates (fun pl => pl)
      (fun g _ _ => SubGrid.mk g.shape (g.placement.map (fun q => q / 2)))
      ([0] : List ℚ) [SubGrid.mk [2] [3, 7]] 4 2 0).gridMakes
      = (List.range (2 - 1)).flatMap (fun _ => List.range 1) ∧
    (∀ i, i < 1 →
      (_refine_estimates (fun pl => pl)
        (fun g _ _ => SubGrid.mk g.shape (g.placement.map (fun q => q / 2)))
        ([0] : List ℚ) [SubGrid.mk [2] [3, 7]] 4 2 0).locations.getD i 0
        = refineChainLoc (fun pl => pl)
            (fun g _ _ => SubGrid.mk g.shape (g.placement.map (fun q => q / 2)))
            4 2 [SubGrid.mk [2] [3, 7]] 0 i (2 - 1)) :=
  refine_estimates_per_estimate_chain (fun pl => pl)
    (fun g _ _ => SubGrid.mk g.shape (g.placement.map (fun q => q / 2)))
    [0] [SubGrid.mk [2] [3, 7]] 4 2 0 rfl (by decide)

end Doatools
